import Mathlib

/-!
# TrueCost financial engine — verification of the specification

Shallow embedding of the pure calculation functions of the TrueCost
personal-finance application (numbers as exact rationals), together with
theorems settling the specification's claims about them.

Sources embedded:
* `src/app/actions.ts` — `clamp`, `computeStressMultiplier`,
  `monthsBetween`, `simulateInvestedValue`, the aggregation cores of
  `getInsightsData`, `getDashboardSummary` and `getGhostCartData`;
* `src/app/insights/page.tsx` — the health-score computation;
* `src/app/item/[query]/page.tsx` — `resaleValueAfterTwoYears`,
  `investedValueAfterTwoYears` and the opportunity delta;
* the net-worth projection module — `compoundMonthly`,
  `futureValueMonthly`, `projectCurve`.
-/

namespace TrueCost

/-- Source clamp: `clamp(n, min, max) = Math.max(min, Math.min(max, n))` (actions.ts,
insights page and the projection module all define it identically). -/
def clamp (n lo hi : ℚ) : ℚ := max lo (min hi n)

/-- JavaScript `Math.round`: round half toward positive infinity,
`Math.round(x) = ⌊x + 0.5⌋`. -/
def jsRound (q : ℚ) : ℤ := ⌊q + 1/2⌋

/-- Source `computeStressMultiplier` (actions.ts):
`s = clamp(Math.round(jobSatisfaction), 1, 10); 1 + (10 - s) * 0.1`. -/
def computeStressMultiplier (jobSatisfaction : ℚ) : ℚ :=
  let s := clamp ((jsRound jobSatisfaction : ℤ) : ℚ) 1 10
  1 + (10 - s) * (1/10)

/-- The six expense categories of `ExpenseCategory` (lib/contracts.ts). -/
inductive Category where
  | food
  | rent
  | transport
  | subscriptions
  | shopping
  | other
deriving DecidableEq, Repr

/-- The fixed enum order of the six categories (lib/contracts.ts). -/
def Category.all : List Category :=
  [.food, .rent, .transport, .subscriptions, .shopping, .other]

/-- An expense row as the aggregation code reads it: an amount and a
category (the date and note fields play no part in the claims below). -/
structure Expense where
  amount : ℚ
  category : Category
deriving DecidableEq, Repr

/-- One step of the `categoryTotals` loop of `getDashboardSummary`
(actions.ts): `categoryTotals[e.category] = (categoryTotals[e.category] ?? 0)
+ (e.amount ?? 0)`.  A JavaScript object keeps a key at its first-insertion
position, so an existing key is updated in place and a new key is appended. -/
def upsertAdd (k : Category) (v : ℚ) : List (Category × ℚ) → List (Category × ℚ)
  | [] => [(k, v)]
  | (k2, v2) :: rest =>
      if k2 = k then (k2, v2 + v) :: rest else (k2, v2) :: upsertAdd k v rest

/-- The `categoryTotals` record built by `getDashboardSummary` (actions.ts):
a fold of the upsert loop over the expense rows, starting from `{}`. -/
def categoryTotals (rows : List Expense) : List (Category × ℚ) :=
  rows.foldl (fun acc e => upsertAdd e.category e.amount acc) []

/-- Reading `categoryTotals[c] ?? 0` from the record. -/
def getTotal (c : Category) : List (Category × ℚ) → ℚ
  | [] => 0
  | (k, v) :: rest => if k = c then v else getTotal c rest

/-- Sum of the amounts of the expenses in category `c`. -/
def sumForCategory (rows : List Expense) (c : Category) : ℚ :=
  ((rows.filter (fun e => e.category = c)).map (fun e => e.amount)).sum

/-- The category-totals mapping as the specification describes it: every
one of the six fixed categories present, zero-filled, in enum order. -/
def categoryTotalsSpec (rows : List Expense) : List (Category × ℚ) :=
  Category.all.map (fun c => (c, sumForCategory rows c))

/-- The spending total `rows.reduce((sum, e) => sum + (e.amount ?? 0), 0)`
used by both `getInsightsData` and `getDashboardSummary` (actions.ts). -/
def spentTotal (rows : List Expense) : ℚ :=
  rows.foldl (fun sum e => sum + e.amount) 0

/-- The fields of `getInsightsData`'s return value (actions.ts) that the
claims are about: `spent30` and `remaining: Math.max(income - spent30, 0)`. -/
structure InsightsData where
  income : ℚ
  spent30 : ℚ
  remaining : ℚ
deriving DecidableEq, Repr

/-- Aggregation core of `getInsightsData` (actions.ts): given the period
income and the fetched 30-day expense rows, it computes `spent30` and
`remaining = Math.max(income - spent30, 0)`. -/
def getInsightsData (income : ℚ) (last30Rows : List Expense) : InsightsData :=
  let spent30 := spentTotal last30Rows
  { income := income
    spent30 := spent30
    remaining := max (income - spent30) 0 }

/-- The fields of `getDashboardSummary`'s return value (actions.ts) that
the claims are about. -/
structure DashboardSummary where
  income : ℚ
  spent : ℚ
  remaining : ℚ
  categoryTotals : List (Category × ℚ)
deriving DecidableEq, Repr

/-- Aggregation core of `getDashboardSummary` (actions.ts): total spent,
the signed `remaining = income - spent`, and the category-totals record. -/
def getDashboardSummary (income : ℚ) (expenseRows : List Expense) : DashboardSummary :=
  let spent := spentTotal expenseRows
  { income := income
    spent := spent
    remaining := income - spent
    categoryTotals := categoryTotals expenseRows }

/-- The health score computed by `InsightsPage` (insights/page.tsx):
`spendRate = income > 0 ? spent / income : 0`, same for `remainingRate`;
`score = 100 - clamp(spendRate*70, 0, 70) + clamp(remainingRate*20, 0, 20)`
clamped to `[0, 100]`. -/
def healthScore (income spent remaining : ℚ) : ℚ :=
  let spendRate := if 0 < income then spent / income else 0
  let remainingRate := if 0 < income then remaining / income else 0
  clamp (100 - clamp (spendRate * 70) 0 70 + clamp (remainingRate * 20) 0 20) 0 100

/-- The health score as the specification words it: the rates are treated
as `0` when `income ≤ 0`. -/
def healthScoreSpec (income spent remaining : ℚ) : ℚ :=
  let spendRate := if income ≤ 0 then 0 else spent / income
  let remainingRate := if income ≤ 0 then 0 else remaining / income
  clamp (100 - clamp (spendRate * 70) 0 70 + clamp (remainingRate * 20) 0 20) 0 100

/-- A calendar date as the ghost-cart code consumes it: `monthsBetween`
reads only `getFullYear()` and `getMonth()`; the day is ignored. -/
structure SDate where
  year : ℤ
  month : ℤ
  day : ℤ
deriving DecidableEq, Repr

/-- Source `monthsBetween(a, b)` (actions.ts):
`Math.max(0, (b.getFullYear() - a.getFullYear()) * 12 + (b.getMonth() - a.getMonth()))`. -/
def monthsBetween (a b : SDate) : ℕ :=
  (max 0 ((b.year - a.year) * 12 + (b.month - a.month))).toNat

/-- Source `simulateInvestedValue({principal, annualRate, from, to})` (actions.ts):
`principal * Math.pow(1 + annualRate/12, monthsBetween(from, to))`. -/
def simulateInvestedValue (principal annualRate : ℚ) (a b : SDate) : ℚ :=
  principal * (1 + annualRate / 12) ^ monthsBetween a b

/-- A ghost-cart row as `getGhostCartData` reads it (actions.ts):
a price and a ghosted-at date. -/
structure GhostItem where
  price : ℚ
  ghostedAt : SDate
deriving DecidableEq, Repr

/-- Per-item `investedValue` computed by `getGhostCartData` (actions.ts):
`simulateInvestedValue({principal: r.price, annualRate, from: ghostedAt, to})`. -/
def ghostInvestedValue (annualRate : ℚ) (asOf : SDate) (it : GhostItem) : ℚ :=
  simulateInvestedValue it.price annualRate it.ghostedAt asOf

/-- Per-item `growth = investedValue - r.price` (actions.ts). -/
def ghostGrowth (annualRate : ℚ) (asOf : SDate) (it : GhostItem) : ℚ :=
  ghostInvestedValue annualRate asOf it - it.price

/-- Source `originalTotal = items.reduce((sum, i) => sum + i.price, 0)` (actions.ts). -/
def ghostOriginalTotal (items : List GhostItem) : ℚ :=
  items.foldl (fun sum i => sum + i.price) 0

/-- Source `currentTotal = items.reduce((sum, i) => sum + i.investedValue, 0)`
(actions.ts). -/
def ghostCurrentTotal (annualRate : ℚ) (asOf : SDate) (items : List GhostItem) : ℚ :=
  items.foldl (fun sum i => sum + ghostInvestedValue annualRate asOf i) 0

/-- Source `growthBonus = currentTotal - originalTotal` (actions.ts). -/
def ghostGrowthBonus (annualRate : ℚ) (asOf : SDate) (items : List GhostItem) : ℚ :=
  ghostCurrentTotal annualRate asOf items - ghostOriginalTotal items

/-- Result of `resaleValueAfterTwoYears` (item/[query]/page.tsx). -/
structure TwoYearResale where
  year1 : ℚ
  year2 : ℚ
deriving DecidableEq, Repr

/-- Source `resaleValueAfterTwoYears(purchasePrice)` (item/[query]/page.tsx):
year 1 loses 35%, year 2 loses 15% of the remaining value. -/
def resaleValueAfterTwoYears (purchasePrice : ℚ) : TwoYearResale :=
  let year1 := purchasePrice * (1 - 35/100)
  { year1 := year1, year2 := year1 * (1 - 15/100) }

/-- Result of `investedValueAfterTwoYears` (item/[query]/page.tsx). -/
structure TwoYearInvest where
  year1 : ℚ
  year2 : ℚ
  annualRate : ℚ
deriving DecidableEq, Repr

/-- Source `investedValueAfterTwoYears(purchasePrice, annualRate)`
(item/[query]/page.tsx): lump sum compounded annually. -/
def investedValueAfterTwoYears (purchasePrice annualRate : ℚ) : TwoYearInvest :=
  { year1 := purchasePrice * (1 + annualRate)
    year2 := purchasePrice * (1 + annualRate) ^ 2
    annualRate := annualRate }

/-- The opportunity delta of the split comparison
(item/[query]/page.tsx): `delta = invest.year2 - resale.year2`. -/
def splitComparisonDelta (price annualRate : ℚ) : ℚ :=
  (investedValueAfterTwoYears price annualRate).year2 -
    (resaleValueAfterTwoYears price).year2

/-- Source `compoundMonthly(balance, annualRate) = balance * (1 + annualRate/12)`
(projection module). -/
def compoundMonthly (balance annualRate : ℚ) : ℚ :=
  let r := annualRate / 12
  balance * (1 + r)

/-- Source `futureValueMonthly({monthly, annualRate, months})` (projection module):
`r = annualRate/12`; when `r` is zero (a rational is always finite) the
result is `monthly * months`, else `monthly * ((Math.pow(1+r, months) - 1) / r)`. -/
def futureValueMonthly (monthly annualRate : ℚ) (months : ℕ) : ℚ :=
  let r := annualRate / 12
  if r = 0 then monthly * months
  else monthly * (((1 + r) ^ months - 1) / r)

/-- The body of `projectCurve`'s loop (projection module): starting at
month `startMonth` with running value `v`, take the given number of steps,
each applying `compoundMonthly` then adding `monthlyContribution`, pushing
one `(month, value)` point per step. -/
def projectSteps (monthlyContribution annualRate : ℚ) :
    ℕ → ℚ → ℕ → List (ℕ × ℚ)
  | _, _, 0 => []
  | startMonth, v, n + 1 =>
      let v2 := compoundMonthly v annualRate + monthlyContribution
      (startMonth, v2) :: projectSteps monthlyContribution annualRate (startMonth + 1) v2 n

/-- Source `projectCurve({months, initial, monthlyContribution, annualRate})`
(projection module): point `(0, initial)` followed by one point per loop
iteration `m = 1 .. months`. -/
def projectCurve (months : ℕ) (initial monthlyContribution annualRate : ℚ) :
    List (ℕ × ℚ) :=
  (0, initial) :: projectSteps monthlyContribution annualRate 1 initial months

/-- The closed recurrence of the running value of `projectCurve`:
`curveVal 0 = initial`, `curveVal (m+1) = compoundMonthly (curveVal m) + c`. -/
def curveVal (initial monthlyContribution annualRate : ℚ) : ℕ → ℚ
  | 0 => initial
  | m + 1 => compoundMonthly (curveVal initial monthlyContribution annualRate m) annualRate
      + monthlyContribution

/-! ## Helper lemmas -/

/-- A left fold accumulating `f x` equals the initial value plus the sum of
the mapped list. -/
lemma foldl_add_eq {α : Type} (f : α → ℚ) (l : List α) (a : ℚ) :
    l.foldl (fun s x => s + f x) a = a + (l.map f).sum := by
  induction l generalizing a with
  | nil => simp
  | cons x xs ih => simp [ih]; ring

/-- The clamp is bounded below by its lower bound. -/
lemma lo_le_clamp (n lo hi : ℚ) : lo ≤ clamp n lo hi := le_max_left _ _

/-- The clamp is bounded above by its upper bound when the bounds are ordered. -/
lemma clamp_le_hi {n lo hi : ℚ} (h : lo ≤ hi) : clamp n lo hi ≤ hi :=
  max_le h (min_le_left _ _)

/-- The clamp is monotone in its argument. -/
lemma clamp_mono {a b : ℚ} (lo hi : ℚ) (h : a ≤ b) :
    clamp a lo hi ≤ clamp b lo hi :=
  max_le_max le_rfl (min_le_min le_rfl h)

/-- Reading a key from the record after one upsert step adds the upserted
amount when the keys match. -/
lemma getTotal_upsertAdd (k c : Category) (v : ℚ) (l : List (Category × ℚ)) :
    getTotal c (upsertAdd k v l) =
      getTotal c l + if k = c then v else 0 := by
  induction l with
  | nil =>
      simp only [upsertAdd, getTotal]
      split_ifs with h <;> simp
  | cons p rest ih =>
      obtain ⟨k2, v2⟩ := p
      by_cases hk : k2 = k
      · subst hk
        simp only [upsertAdd, if_pos rfl, getTotal]
        by_cases hc : k2 = c
        · simp [hc]
        · simp [hc]
      · simp only [upsertAdd, if_neg hk, getTotal]
        by_cases hc2 : k2 = c
        · have hkc : ¬ k = c := fun h => hk (hc2.trans h.symm)
          simp [hc2, hkc]
        · simp [hc2, ih]

/-- Cons step of the per-category sum. -/
lemma sumForCategory_cons (e : Expense) (rows : List Expense) (c : Category) :
    sumForCategory (e :: rows) c =
      (if e.category = c then e.amount else 0) + sumForCategory rows c := by
  simp only [sumForCategory, List.filter_cons]
  split_ifs with h <;> simp_all

/-- Reading a key from the record built by the upsert fold yields the
accumulator's entry plus the per-category sum of the rows. -/
lemma getTotal_foldl (rows : List Expense) (acc : List (Category × ℚ)) (c : Category) :
    getTotal c (rows.foldl (fun a e => upsertAdd e.category e.amount a) acc) =
      getTotal c acc + sumForCategory rows c := by
  induction rows generalizing acc with
  | nil => simp [sumForCategory]
  | cons e rest ih =>
      simp only [List.foldl_cons, ih, getTotal_upsertAdd, sumForCategory_cons]
      ring

/-- Key membership after one upsert step. -/
lemma mem_keys_upsertAdd (k c : Category) (v : ℚ) (l : List (Category × ℚ)) :
    c ∈ (upsertAdd k v l).map Prod.fst ↔ c = k ∨ c ∈ l.map Prod.fst := by
  induction l with
  | nil => simp [upsertAdd]
  | cons p rest ih =>
      obtain ⟨k2, v2⟩ := p
      simp only [upsertAdd]
      split_ifs with hk
      · subst hk
        simp
        try tauto
      · simp [ih]
        try tauto

/-- One upsert step keeps the record's keys duplicate-free. -/
lemma nodup_keys_upsertAdd (k : Category) (v : ℚ) (l : List (Category × ℚ))
    (h : (l.map Prod.fst).Nodup) : ((upsertAdd k v l).map Prod.fst).Nodup := by
  induction l with
  | nil => simp [upsertAdd]
  | cons p rest ih =>
      obtain ⟨k2, v2⟩ := p
      simp only [upsertAdd]
      split_ifs with hk
      · simpa using h
      · simp only [List.map_cons, List.nodup_cons] at h ⊢
        refine ⟨?_, ih h.2⟩
        rw [mem_keys_upsertAdd]
        rintro (rfl | hmem)
        · exact hk rfl
        · exact h.1 hmem

/-- Key membership in the record built by the upsert fold. -/
lemma mem_keys_foldl (rows : List Expense) (acc : List (Category × ℚ)) (c : Category) :
    c ∈ ((rows.foldl (fun a e => upsertAdd e.category e.amount a) acc).map Prod.fst) ↔
      c ∈ acc.map Prod.fst ∨ c ∈ rows.map (fun e => e.category) := by
  induction rows generalizing acc with
  | nil => simp
  | cons e rest ih =>
      simp only [List.foldl_cons, ih, mem_keys_upsertAdd, List.map_cons, List.mem_cons]
      tauto

/-- The upsert fold keeps the record's keys duplicate-free. -/
lemma nodup_keys_foldl (rows : List Expense) (acc : List (Category × ℚ))
    (h : (acc.map Prod.fst).Nodup) :
    (((rows.foldl (fun a e => upsertAdd e.category e.amount a) acc)).map Prod.fst).Nodup := by
  induction rows generalizing acc with
  | nil => simpa
  | cons e rest ih => exact ih _ (nodup_keys_upsertAdd _ _ _ h)

/-- Restarting the recurrence after one step shifts its index by one. -/
lemma curveVal_shift (i c r : ℚ) (m : ℕ) :
    curveVal (compoundMonthly i r + c) c r m = curveVal i c r (m + 1) := by
  induction m with
  | zero => rfl
  | succ k ih => simp [curveVal, ih]

/-- The loop of `projectCurve` produces, from start month `s` and running
value `v`, the points `(s + j, curveVal v (j+1))` for `j < n`. -/
lemma projectSteps_eq (c r v : ℚ) (s n : ℕ) :
    projectSteps c r s v n =
      (List.range n).map (fun j => (s + j, curveVal v c r (j + 1))) := by
  induction n generalizing s v with
  | zero => simp [projectSteps]
  | succ k ih =>
      rw [projectSteps, ih, List.range_succ_eq_map, List.map_cons, List.map_map]
      congr 1
      apply List.map_congr_left
      intro j hj
      simp only [Function.comp_apply]
      rw [curveVal_shift]
      exact Prod.ext (by omega) rfl

/-- Closed characterization of `projectCurve`: the point at month `m` is
`(m, curveVal m)`, for `m = 0 .. months`. -/
lemma projectCurve_eq (months : ℕ) (i c r : ℚ) :
    projectCurve months i c r =
      (List.range (months + 1)).map (fun m => (m, curveVal i c r m)) := by
  rw [projectCurve, projectSteps_eq, List.range_succ_eq_map, List.map_cons,
    List.map_map]
  congr 1
  apply List.map_congr_left
  intro j hj
  simp only [Function.comp_apply]
  exact Prod.ext (by omega) rfl

/-- A rational at least one stays at least one under powers. -/
lemma one_le_pow_rat {x : ℚ} (hx : 1 ≤ x) : ∀ n : ℕ, 1 ≤ x ^ n
  | 0 => by norm_num
  | n + 1 => by
      have h := one_le_pow_rat hx n
      have hx0 : (0:ℚ) ≤ x ^ n := le_trans (by norm_num) h
      calc (1:ℚ) = 1 * 1 := by norm_num
        _ ≤ x ^ n * x := mul_le_mul h hx (by norm_num) hx0
        _ = x ^ (n + 1) := (pow_succ x n).symm

/-- With a nonnegative rate and a nonnegative price, the simulated invested
value of a ghost item is at least its price. -/
lemma price_le_ghostInvestedValue {annualRate : ℚ} (hr : 0 ≤ annualRate)
    (asOf : SDate) {it : GhostItem} (hp : 0 ≤ it.price) :
    it.price ≤ ghostInvestedValue annualRate asOf it := by
  have h1 : (1:ℚ) ≤ 1 + annualRate / 12 := by
    have := div_nonneg hr (by norm_num : (0:ℚ) ≤ 12)
    linarith
  have h2 := one_le_pow_rat h1 (monthsBetween it.ghostedAt asOf)
  calc it.price = it.price * 1 := (mul_one _).symm
    _ ≤ it.price * (1 + annualRate / 12) ^ monthsBetween it.ghostedAt asOf :=
        mul_le_mul_of_nonneg_left h2 hp
    _ = ghostInvestedValue annualRate asOf it := rfl

/-! ## Claim theorems -/

/-- C1, counterexample: the claim that every entry point returning a
`remaining` field returns the true signed delta `income - spent` fails on
`getInsightsData`: with income `0` and a single expense of `10`, its
`remaining` is clamped to `0`, not `-10`. -/
theorem remaining_signed_cex :
    (getInsightsData 0 [⟨10, Category.food⟩]).remaining ≠
      (getInsightsData 0 [⟨10, Category.food⟩]).income -
        (getInsightsData 0 [⟨10, Category.food⟩]).spent30 := by
  norm_num [getInsightsData, spentTotal, max_def]

/-- C1, amended: `getDashboardSummary` returns the signed delta
`income - spent`, while `getInsightsData` clamps its `remaining` at zero,
returning `max(income - spent30, 0)`. -/
theorem remaining_amended (income : ℚ) (rows : List Expense) :
    (getDashboardSummary income rows).remaining =
      income - (rows.map (fun e => e.amount)).sum ∧
    (getInsightsData income rows).remaining =
      max (income - (rows.map (fun e => e.amount)).sum) 0 := by
  constructor <;>
    simp [getDashboardSummary, getInsightsData, spentTotal, foldl_add_eq]

/-- C2: the health score equals `100 - clamp(spendRate*70, 0, 70) +
clamp(remainingRate*20, 0, 20)` clamped to `[0, 100]`, with both rates
treated as `0` when `income ≤ 0`; in particular the score at income `0`
is `100` regardless of `spent` and `remaining`. -/
theorem healthScore_matches_spec (income spent remaining : ℚ) :
    healthScore income spent remaining = healthScoreSpec income spent remaining ∧
    healthScore 0 spent remaining = 100 := by
  constructor
  · simp only [healthScore, healthScoreSpec]
    split_ifs <;> first | rfl | (exfalso; linarith)
  · norm_num [healthScore, clamp, max_def, min_def]

/-- C3: for fixed income the health score is non-increasing in `spent`
(remaining fixed) and non-decreasing in `remaining` (spent fixed). -/
theorem healthScore_monotone
    (income spent spent1 spent2 remaining remaining1 remaining2 : ℚ)
    (hs : spent1 ≤ spent2) (hr : remaining1 ≤ remaining2) :
    healthScore income spent2 remaining ≤ healthScore income spent1 remaining ∧
    healthScore income spent remaining1 ≤ healthScore income spent remaining2 := by
  constructor
  · simp only [healthScore]
    rcases lt_or_le 0 income with h | h
    · simp only [if_pos h]
      apply clamp_mono
      have hdiv : spent1 / income ≤ spent2 / income := by gcongr
      have hA : clamp (spent1 / income * 70) 0 70 ≤ clamp (spent2 / income * 70) 0 70 :=
        clamp_mono _ _ (by nlinarith)
      linarith
    · simp [if_neg (not_lt.mpr h)]
  · simp only [healthScore]
    rcases lt_or_le 0 income with h | h
    · simp only [if_pos h]
      apply clamp_mono
      have hdiv : remaining1 / income ≤ remaining2 / income := by gcongr
      have hC : clamp (remaining1 / income * 20) 0 20 ≤ clamp (remaining2 / income * 20) 0 20 :=
        clamp_mono _ _ (by nlinarith)
      linarith
    · simp [if_neg (not_lt.mpr h)]

/-- C3, witness: a concrete instance of the monotonicity at income `100`. -/
theorem healthScore_monotone_witness :
    healthScore 100 40 30 ≤ healthScore 100 20 30 ∧
    healthScore 100 20 10 ≤ healthScore 100 20 50 :=
  healthScore_monotone 100 20 20 40 30 10 50 (by norm_num) (by norm_num)

/-- C4, counterexample: the claim's formula
`1 + (10 - clamp(jobSatisfaction, 1, 10)) * 0.1` fails at the non-integer
satisfaction `5.5`: the code rounds first and yields `1.4`, while the
claimed formula yields `1.45`. -/
theorem computeStressMultiplier_rounds_cex :
    computeStressMultiplier (11/2) ≠ 1 + (10 - clamp (11/2) 1 10) * (1/10) := by
  norm_num [computeStressMultiplier, clamp, jsRound, max_def, min_def]

/-- C4, amended: the stress multiplier equals
`1 + (10 - clamp(round(jobSatisfaction), 1, 10)) * 0.1` where `round` is
half-up rounding; it always lies in `[1.0, 1.9]`, satisfaction `10`
yields exactly `1.0` and satisfaction `1` yields exactly `1.9`. -/
theorem computeStressMultiplier_amended (q : ℚ) :
    computeStressMultiplier q =
      1 + (10 - clamp ((jsRound q : ℤ) : ℚ) 1 10) * (1/10) ∧
    1 ≤ computeStressMultiplier q ∧
    computeStressMultiplier q ≤ 19/10 ∧
    computeStressMultiplier 10 = 1 ∧
    computeStressMultiplier 1 = 19/10 := by
  have h1 : 1 ≤ clamp ((jsRound q : ℤ) : ℚ) 1 10 := lo_le_clamp _ _ _
  have h2 : clamp ((jsRound q : ℤ) : ℚ) 1 10 ≤ 10 := clamp_le_hi (by norm_num)
  refine ⟨rfl, ?_, ?_, ?_, ?_⟩
  · simp only [computeStressMultiplier]; linarith
  · simp only [computeStressMultiplier]; linarith
  · norm_num [computeStressMultiplier, clamp, jsRound, max_def, min_def]
  · norm_num [computeStressMultiplier, clamp, jsRound, max_def, min_def]

/-- C5, counterexample: the claim that the category-totals output has all
six categories present (zero-filled, in enum order) fails on a single
shopping expense: the record holds only the one key that occurred. -/
theorem categoryTotals_not_zero_filled_cex :
    categoryTotals [⟨5, Category.shopping⟩] = [(Category.shopping, 5)] ∧
    categoryTotals [⟨5, Category.shopping⟩] ≠
      categoryTotalsSpec [⟨5, Category.shopping⟩] := by
  constructor
  · rfl
  · simp [categoryTotals, categoryTotalsSpec, Category.all, upsertAdd, sumForCategory]

/-- C5, amended: the category-totals record maps each category to the sum
of the amounts of its expenses (an absent key reads as `0`), a category is
present in the record exactly when some expense has that category, and no
category appears twice. -/
theorem categoryTotals_amended (rows : List Expense) (c : Category) :
    getTotal c (categoryTotals rows) = sumForCategory rows c ∧
    (c ∈ (categoryTotals rows).map Prod.fst ↔
      c ∈ rows.map (fun e => e.category)) ∧
    ((categoryTotals rows).map Prod.fst).Nodup := by
  refine ⟨?_, ?_, ?_⟩
  · simpa [getTotal] using getTotal_foldl rows [] c
  · simpa using mem_keys_foldl rows [] c
  · exact nodup_keys_foldl rows [] (by simp)

/-- C6: elapsed months equal `max(0, (to.year - from.year)*12 +
(to.month - from.month))` with the day ignored, the simulated value is the
principal compounded monthly over those months, and principal `1000` at
annual rate `0.12` over `12` months lands within `0.01` of `1126.83`. -/
theorem monthsBetween_simulate_spec (a b : SDate) (p r : ℚ) :
    (monthsBetween a b : ℤ) =
      max 0 ((b.year - a.year) * 12 + (b.month - a.month)) ∧
    simulateInvestedValue p r a b = p * (1 + r / 12) ^ monthsBetween a b ∧
    |simulateInvestedValue 1000 (12/100) ⟨2020, 0, 15⟩ ⟨2021, 0, 3⟩ -
        112683/100| < 1/100 := by
  refine ⟨?_, rfl, ?_⟩
  · have h : (0:ℤ) ≤ max 0 ((b.year - a.year) * 12 + (b.month - a.month)) :=
      le_max_left _ _
    simp [monthsBetween, Int.toNat_of_nonneg h]
  · have hm : monthsBetween ⟨2020, 0, 15⟩ ⟨2021, 0, 3⟩ = 12 := by decide
    rw [abs_sub_lt_iff]
    constructor <;> · simp only [simulateInvestedValue, hm]; norm_num

/-- C7: the split comparison depreciates `35%` then `15%` of the remainder
on the resale side and compounds annually on the investment side; at price
`500` and rate `0.08` it yields resale `276.25`, invested `583.20` and
opportunity delta `306.95`, all exactly. -/
theorem splitComparison_spec (p r : ℚ) (hp : 0 < p) :
    (resaleValueAfterTwoYears p).year1 = p * (1 - 35/100) ∧
    (resaleValueAfterTwoYears p).year2 = p * (1 - 35/100) * (1 - 15/100) ∧
    (investedValueAfterTwoYears p r).year1 = p * (1 + r) ∧
    (investedValueAfterTwoYears p r).year2 = p * (1 + r) ^ 2 ∧
    (resaleValueAfterTwoYears 500).year2 = 27625/100 ∧
    (investedValueAfterTwoYears 500 (8/100)).year2 = 5832/10 ∧
    splitComparisonDelta 500 (8/100) = 30695/100 := by
  refine ⟨rfl, rfl, rfl, rfl, ?_, ?_, ?_⟩ <;>
    norm_num [resaleValueAfterTwoYears, investedValueAfterTwoYears,
      splitComparisonDelta]

/-- C7, witness: the split comparison at price `500` and rate `0.08`. -/
theorem splitComparison_witness :
    (0:ℚ) < 500 ∧
    (resaleValueAfterTwoYears 500).year2 = 27625/100 ∧
    (investedValueAfterTwoYears 500 (8/100)).year2 = 5832/10 ∧
    splitComparisonDelta 500 (8/100) = 30695/100 := by
  have h := splitComparison_spec 500 (8/100) (by norm_num)
  exact ⟨by norm_num, h.2.2.2.2.1, h.2.2.2.2.2.1, h.2.2.2.2.2.2⟩

/-- C8: the projected curve has `months + 1` points, starts at
`(0, initial)`, each point after a point `(m, v)` with `m < months` holds
the previous value compounded one month plus the contribution, and the
curve for `months = 0` is exactly `[(0, initial)]`. -/
theorem projectCurve_spec (months : ℕ) (i c r v : ℚ) (m : ℕ)
    (hv : (projectCurve months i c r).get? m = some (m, v)) (hm : m < months) :
    (projectCurve months i c r).length = months + 1 ∧
    (projectCurve months i c r).get? 0 = some (0, i) ∧
    (projectCurve months i c r).get? (m + 1) =
      some (m + 1, compoundMonthly v r + c) ∧
    projectCurve 0 i c r = [(0, i)] := by
  have hchar := projectCurve_eq months i c r
  refine ⟨?_, ?_, ?_, rfl⟩
  · simp [hchar]
  · rw [hchar]
    rw [List.get?_map, List.get?_range (by omega : 0 < months + 1)]
    rfl
  · have h1 : (projectCurve months i c r).get? m = some (m, curveVal i c r m) := by
      rw [hchar, List.get?_map, List.get?_range (by omega : m < months + 1)]
      rfl
    rw [h1] at hv
    have hv2 : curveVal i c r m = v := congrArg Prod.snd (Option.some.inj hv)
    rw [hchar, List.get?_map, List.get?_range (by omega : m + 1 < months + 1)]
    rw [← hv2]
    simp [curveVal]

/-- C8, witness: the two-month curve from initial `7`, contribution `3`,
annual rate `0.12`. -/
theorem projectCurve_spec_witness :
    (projectCurve 2 7 3 (12/100)).length = 3 ∧
    (projectCurve 2 7 3 (12/100)).get? 0 = some (0, 7) ∧
    (projectCurve 2 7 3 (12/100)).get? 1 =
      some (1, compoundMonthly 7 (12/100) + 3) ∧
    projectCurve 0 7 3 (12/100) = [(0, 7)] :=
  projectCurve_spec 2 7 3 (12/100) 7 0 rfl (by norm_num)

/-- C9: the future value of an annuity equals
`monthly * ((1 + r)^months - 1) / r` for `r = annualRate/12 ≠ 0`, the
zero-rate case degrades to `monthly * months` with no division, and the
value at `(100, 0.12, 12)` lands within `0.01` of `1268.25`. -/
theorem futureValueMonthly_spec (monthly annualRate : ℚ) (months : ℕ)
    (h : annualRate / 12 ≠ 0) :
    futureValueMonthly monthly annualRate months =
      monthly * (((1 + annualRate / 12) ^ months - 1) / (annualRate / 12)) ∧
    futureValueMonthly monthly 0 months = monthly * months ∧
    |futureValueMonthly 100 (12/100) 12 - 126825/100| < 1/100 := by
  refine ⟨?_, ?_, ?_⟩
  · simp [futureValueMonthly, h]
  · norm_num [futureValueMonthly]
  · rw [abs_sub_lt_iff]
    constructor <;> norm_num [futureValueMonthly]

/-- C9, witness: the annuity at monthly `100`, annual rate `0.12`, over
`12` months. -/
theorem futureValueMonthly_witness :
    futureValueMonthly 100 (12/100) 12 =
      100 * (((1 + (12:ℚ)/100 / 12) ^ (12:ℕ) - 1) / ((12:ℚ)/100 / 12)) ∧
    futureValueMonthly 100 0 12 = 100 * (12:ℕ) ∧
    |futureValueMonthly 100 (12/100) 12 - 126825/100| < 1/100 :=
  futureValueMonthly_spec 100 (12/100) 12 (by norm_num)

/-- C10: with nonnegative item prices and a nonnegative annual rate, every
ghost item's simulated invested value is at least its price, every growth
is nonnegative, and the aggregate growth bonus
`currentTotal - originalTotal` is nonnegative. -/
theorem ghostCart_growth_nonneg (annualRate : ℚ) (asOf : SDate)
    (items : List GhostItem) (hr : 0 ≤ annualRate)
    (hp : ∀ it ∈ items, 0 ≤ it.price) :
    (∀ it ∈ items, it.price ≤ ghostInvestedValue annualRate asOf it) ∧
    (∀ it ∈ items, 0 ≤ ghostGrowth annualRate asOf it) ∧
    0 ≤ ghostGrowthBonus annualRate asOf items := by
  have key : ∀ it ∈ items, it.price ≤ ghostInvestedValue annualRate asOf it :=
    fun it hit => price_le_ghostInvestedValue hr asOf (hp it hit)
  refine ⟨key, fun it hit => ?_, ?_⟩
  · have h := key it hit
    simp only [ghostGrowth]
    linarith
  · have hsum : ((items.map fun i => i.price).sum : ℚ) ≤
        (items.map (ghostInvestedValue annualRate asOf)).sum :=
      List.sum_le_sum key
    simp only [ghostGrowthBonus, ghostCurrentTotal, ghostOriginalTotal,
      foldl_add_eq, zero_add]
    linarith

/-- C10, witness: one item of price `500` ghosted twelve months before the
valuation date, at annual rate `0.08`. -/
theorem ghostCart_growth_nonneg_witness :
    (∀ it ∈ [GhostItem.mk 500 ⟨2020, 0, 1⟩],
      it.price ≤ ghostInvestedValue (8/100) ⟨2021, 0, 1⟩ it) ∧
    (∀ it ∈ [GhostItem.mk 500 ⟨2020, 0, 1⟩],
      0 ≤ ghostGrowth (8/100) ⟨2021, 0, 1⟩ it) ∧
    0 ≤ ghostGrowthBonus (8/100) ⟨2021, 0, 1⟩ [GhostItem.mk 500 ⟨2020, 0, 1⟩] :=
  ghostCart_growth_nonneg (8/100) ⟨2021, 0, 1⟩ [⟨500, ⟨2020, 0, 1⟩⟩]
    (by norm_num)
    (by
      intro it hit
      rw [List.mem_singleton] at hit
      subst hit
      norm_num)

end TrueCost

